import Mathlib

/-!
Shallow embedding of the distributed consensus multi-agent simulation
(`concensus.py`): agents hold rational values, a `Network` owns an
insertion-ordered collection of agents, and `ConsensusSimulation` performs
synchronous averaging rounds with a two-tier convergence check.
Python floats are modelled exactly by `Rat`; fallible operations
(`KeyError` / `ValueError`) return `Except` / `Option`.
-/

namespace Consensus

/-- Error taxonomy of the spec: `DuplicateIdentifier` (agent creation with a
used id), `UnknownAgent` (edge creation with a missing endpoint),
`InvalidConfiguration` (step size outside `(0,1]`). -/
inductive SimError where
  | duplicateIdentifier
  | unknownAgent
  | invalidConfiguration
deriving DecidableEq, Repr

/-- `Agent`: identifier, current value, ordered neighbor-id list. -/
structure Agent where
  agent_id : Int
  value : Rat
  neighbors : List Int
deriving DecidableEq, Repr

/-- `Network`: insertion-ordered collection of agents (Python `dict` keyed by
id; the `add_agent` guard keeps ids unique). -/
structure Network where
  agents : List Agent
deriving DecidableEq, Repr

/-- Dict lookup `self.agents[aid]`: first agent with the given id. -/
def Network.find (net : Network) (aid : Int) : Option Agent :=
  net.agents.find? (fun ag => ag.agent_id == aid)

/-- `Network.add_agent`: fails with `DuplicateIdentifier` when the id is
already present, otherwise appends a fresh agent with an empty neighbor
list. -/
def Network.add_agent (net : Network) (aid : Int) (initial_value : Rat) :
    Except SimError Network :=
  if (net.find aid).isSome then .error .duplicateIdentifier
  else .ok ⟨net.agents ++ [⟨aid, initial_value, []⟩]⟩

/-- One neighbor-list append: `self.agents[aid].neighbors.append(nb)`. -/
def Network.appendNeighbor (net : Network) (aid nb : Int) : Network :=
  ⟨net.agents.map (fun ag =>
    if ag.agent_id = aid then { ag with neighbors := ag.neighbors ++ [nb] }
    else ag)⟩

/-- `Network.add_edge`: fails with `UnknownAgent` when either endpoint is
missing; otherwise appends `b` to `a`'s neighbor list and then `a` to `b`'s
(two appends, also when `a = b`). -/
def Network.add_edge (net : Network) (a b : Int) : Except SimError Network :=
  if (net.find a).isSome && (net.find b).isSome then
    .ok ((net.appendNeighbor a b).appendNeighbor b a)
  else .error .unknownAgent

/-- `Network.get_all_values`: snapshot mapping id → current value. -/
def Network.get_all_values (net : Network) : List (Int × Rat) :=
  net.agents.map (fun ag => (ag.agent_id, ag.value))

/-- Simulation state: network reference, step size, round counter, and the
`_previous_values` snapshot used by the convergence check. -/
structure ConsensusSimulation where
  network : Network
  step_size : Rat
  current_round : Nat
  previous_values : List (Int × Rat)
deriving DecidableEq, Repr

/-- `ConsensusSimulation.__init__`: validates `0 < step_size ≤ 1`, starts at
round 0 with an empty previous-value snapshot. -/
def ConsensusSimulation.create (network : Network) (step_size : Rat) :
    Except SimError ConsensusSimulation :=
  if 0 < step_size ∧ step_size ≤ 1 then
    .ok ⟨network, step_size, 0, []⟩
  else .error .invalidConfiguration

/-- `initialize_previous_values`: saves the current configuration. -/
def ConsensusSimulation.initialize_previous_values
    (sim : ConsensusSimulation) : ConsensusSimulation :=
  { sim with previous_values := sim.network.get_all_values }

/-- All-or-nothing option-valued map (a Python loop that can raise). -/
def mapOpt (f : α → Option β) : List α → Option (List β)
  | [] => some []
  | x :: xs =>
    match f x, mapOpt f xs with
    | some y, some ys => some (y :: ys)
    | _, _ => none

/-- Pre-round values of an agent's neighbors, in list order
(`[self.network.agents[n].value for n in ag.neighbors]`); `none` when a
neighbor id is missing (Python `KeyError`). -/
def neighborValues (net : Network) (ag : Agent) : Option (List Rat) :=
  mapOpt (fun n => (net.find n).map Agent.value) ag.neighbors

/-- The per-agent update of `step`: no neighbors ⇒ keep the value, otherwise
move `step_size` of the way towards the local average. -/
def updateAgent (net : Network) (step_size : Rat) (ag : Agent) :
    Option Agent :=
  if ag.neighbors = [] then some ag
  else
    match neighborValues net ag with
    | none => none
    | some nvs =>
      let average_local := (ag.value + nvs.sum) / (1 + (nvs.length : Rat))
      some { ag with value := ag.value + step_size * (average_local - ag.value) }

/-- `ConsensusSimulation.step`: compute every new value from the pre-round
network, then apply them all and increment the round counter. -/
def ConsensusSimulation.step (sim : ConsensusSimulation) :
    Option ConsensusSimulation :=
  match mapOpt (updateAgent sim.network sim.step_size) sim.network.agents with
  | none => none
  | some ags =>
    some { sim with network := ⟨ags⟩, current_round := sim.current_round + 1 }

/-- The agents counted as "changed" by the second convergence tier: current
value differs from the `previous_values` entry (current value standing in
when no entry exists) by more than `epsilon`. -/
def ConsensusSimulation.changedCount (sim : ConsensusSimulation)
    (epsilon : Rat) : Nat :=
  sim.network.agents.countP (fun ag =>
    decide (epsilon <
      |ag.value - ((sim.previous_values.lookup ag.agent_id).getD ag.value)|))

/-- `max(values) − min(values)` of a network's current values (0 when
empty; only read behind a non-emptiness guard). -/
def Network.spread (net : Network) : Rat :=
  match net.agents.map Agent.value with
  | [] => 0
  | v :: vs => vs.foldl max v - vs.foldl min v

/-- `has_converged`: tier 1 returns true for an empty network or when
`max − min < epsilon`; tier 2 counts changed agents against the previous
snapshot, refreshes the snapshot, and returns true when the changed ratio
is below 20%. Returns the flag together with the updated state. -/
def ConsensusSimulation.has_converged (sim : ConsensusSimulation)
    (epsilon : Rat) : Bool × ConsensusSimulation :=
  match sim.network.agents.map Agent.value with
  | [] => (true, sim)
  | v :: vs =>
    if vs.foldl max v - vs.foldl min v < epsilon then (true, sim)
    else
      if 0 < sim.network.agents.length then
        if (sim.changedCount epsilon : Rat) / (sim.network.agents.length : Rat)
            < 1 / 5 then
          (true, { sim with previous_values := sim.network.get_all_values })
        else (false, { sim with previous_values := sim.network.get_all_values })
      else (false, { sim with previous_values := sim.network.get_all_values })

/-- The loop body of `run`, fuelled: one `step`, then the convergence check,
stopping at the first `true`. -/
def ConsensusSimulation.runAux (epsilon : Rat) :
    Nat → ConsensusSimulation → Option ConsensusSimulation
  | 0, sim => some sim
  | fuel + 1, sim =>
    match sim.step with
    | none => none
    | some s1 =>
      match s1.has_converged epsilon with
      | (true, s2) => some s2
      | (false, s2) => ConsensusSimulation.runAux epsilon fuel s2

/-- `ConsensusSimulation.run`: snapshot the initial values, iterate up to
`max_rounds` rounds, and return the final `current_round` with the final
state. -/
def ConsensusSimulation.run (sim : ConsensusSimulation) (max_rounds : Nat)
    (epsilon : Rat) : Option (Nat × ConsensusSimulation) :=
  match ConsensusSimulation.runAux epsilon max_rounds
      sim.initialize_previous_values with
  | none => none
  | some s => some (s.current_round, s)

/-- Statement-side helper: the value held by the agent an id resolves to
(only used under the hypothesis that the id is present). -/
def Network.valueOf (net : Network) (m : Int) : Rat :=
  (((net.find m).map Agent.value)).getD 0

/-- `k` step-iterations (no convergence check). -/
def stepIter : ConsensusSimulation → Nat → Option ConsensusSimulation
  | sim, 0 => some sim
  | sim, k + 1 =>
    match sim.step with
    | none => none
    | some s => stepIter s k

/-- One loop iteration of `run`: a `step` followed by the convergence
check, returning the flag and the post-check state. -/
def roundOnce (sim : ConsensusSimulation) (epsilon : Rat) :
    Option (Bool × ConsensusSimulation) :=
  match sim.step with
  | none => none
  | some u => some (u.has_converged epsilon)

/-- Trace of `run`'s loop: state and convergence flag after `k` complete
step-then-check rounds starting from `sim0` (flag `false` at `k = 0`;
later rounds continue from the post-check state whatever the flag). -/
def roundsFrom :
    ConsensusSimulation → Rat → Nat → Option (Bool × ConsensusSimulation)
  | sim0, _, 0 => some (false, sim0)
  | sim0, epsilon, k + 1 =>
    match roundOnce sim0 epsilon with
    | none => none
    | some (c, t) => if k = 0 then some (c, t) else roundsFrom t epsilon k

/-! Concrete states used to exercise the theorems on closed inputs. -/

/-- Simulation over the empty network. -/
def emptySim : ConsensusSimulation := ⟨⟨[]⟩, 1 / 2, 0, []⟩

/-- Simulation over a single isolated agent (id 0, value 42). -/
def simSingle : ConsensusSimulation := ⟨⟨[⟨0, 42, []⟩]⟩, 1 / 2, 0, []⟩

/-- `simSingle` after one round of `run` (prev-snapshot captured, round 1). -/
def simSingleFinal : ConsensusSimulation :=
  ⟨⟨[⟨0, 42, []⟩]⟩, 1 / 2, 1, [(0, 42)]⟩

/-- Two connected agents with values 0 and 10, step size 1/2. -/
def simPair : ConsensusSimulation :=
  ⟨⟨[⟨0, 0, [1]⟩, ⟨1, 10, [0]⟩]⟩, 1 / 2, 0, []⟩

/-- `simPair` after one `step`. -/
def simPairNext : ConsensusSimulation :=
  ⟨⟨[⟨0, 5 / 2, [1]⟩, ⟨1, 15 / 2, [0]⟩]⟩, 1 / 2, 1, []⟩

/-- Two connected agents plus an isolated agent 99 holding 999. -/
def simIso : ConsensusSimulation :=
  ⟨⟨[⟨0, 0, [1]⟩, ⟨1, 10, [0]⟩, ⟨99, 999, []⟩]⟩, 1 / 2, 0, []⟩

/-- `simIso` after `run 2 (1/1000)`: two full rounds, snapshot refreshed. -/
def simIsoFinal : ConsensusSimulation :=
  ⟨⟨[⟨0, 15 / 4, [1]⟩, ⟨1, 25 / 4, [0]⟩, ⟨99, 999, []⟩]⟩, 1 / 2, 2,
    [(0, 15 / 4), (1, 25 / 4), (99, 999)]⟩

/-- A uniform-value network with a self-loop and a duplicated neighbor
entry: everyone holds 7. -/
def simUniform : ConsensusSimulation :=
  ⟨⟨[⟨0, 7, [0, 1, 1]⟩, ⟨1, 7, [0]⟩]⟩, 1 / 2, 0, []⟩

/-- `simUniform` after one `step`: values unchanged, round advanced. -/
def simUniformNext : ConsensusSimulation :=
  ⟨⟨[⟨0, 7, [0, 1, 1]⟩, ⟨1, 7, [0]⟩]⟩, 1 / 2, 1, []⟩

/-- A two-agent network used for construction and mutation tests. -/
def netTwo : Network := ⟨[⟨0, 10, []⟩, ⟨1, 0, []⟩]⟩

/-! Basic facts about `mapOpt`. -/

theorem mapOpt_length {α β : Type} {f : α → Option β} :
    ∀ {l : List α} {l' : List β}, mapOpt f l = some l' → l'.length = l.length := by
  intro l
  induction l with
  | nil => intro l' h; simp [mapOpt] at h; simp [← h]
  | cons x xs ih =>
    intro l' h
    simp only [mapOpt] at h
    cases hfx : f x with
    | none => rw [hfx] at h; exact absurd h (by simp)
    | some y =>
      rw [hfx] at h
      cases hxs : mapOpt f xs with
      | none => rw [hxs] at h; exact absurd h (by simp)
      | some ys =>
        rw [hxs] at h
        simp only [Option.some.injEq] at h
        subst h
        simp [ih hxs]

theorem mapOpt_getElem? {α β : Type} {f : α → Option β} :
    ∀ {l : List α} {l' : List β}, mapOpt f l = some l' →
      ∀ (i : Nat) (a : α), l[i]? = some a → ∃ b, f a = some b ∧ l'[i]? = some b := by
  intro l
  induction l with
  | nil => intro l' _ i a ha; simp at ha
  | cons x xs ih =>
    intro l' h i a ha
    simp only [mapOpt] at h
    cases hfx : f x with
    | none => rw [hfx] at h; exact absurd h (by simp)
    | some y =>
      rw [hfx] at h
      cases hxs : mapOpt f xs with
      | none => rw [hxs] at h; exact absurd h (by simp)
      | some ys =>
        rw [hxs] at h
        simp only [Option.some.injEq] at h
        subst h
        cases i with
        | zero =>
          simp at ha
          subst ha
          exact ⟨y, hfx, by simp⟩
        | succ j =>
          simp at ha
          obtain ⟨b, hb, hb'⟩ := ih hxs j a ha
          exact ⟨b, hb, by simpa using hb'⟩

theorem mapOpt_mem_rev {α β : Type} {f : α → Option β} :
    ∀ {l : List α} {l' : List β}, mapOpt f l = some l' →
      ∀ b ∈ l', ∃ a ∈ l, f a = some b := by
  intro l
  induction l with
  | nil =>
    intro l' h b hb
    simp [mapOpt] at h
    subst h
    simp at hb
  | cons x xs ih =>
    intro l' h b hb
    simp only [mapOpt] at h
    cases hfx : f x with
    | none => rw [hfx] at h; exact absurd h (by simp)
    | some y =>
      rw [hfx] at h
      cases hxs : mapOpt f xs with
      | none => rw [hxs] at h; exact absurd h (by simp)
      | some ys =>
        rw [hxs] at h
        simp only [Option.some.injEq] at h
        subst h
        rcases List.mem_cons.1 hb with hb | hb
        · exact ⟨x, List.mem_cons_self x xs, hb ▸ hfx⟩
        · obtain ⟨a, ha, ha'⟩ := ih hxs b hb
          exact ⟨a, List.mem_cons_of_mem x ha, ha'⟩

theorem mapOpt_isSome {α β : Type} {f : α → Option β}
    {l : List α} {l' : List β} (h : mapOpt f l = some l') :
    ∀ a ∈ l, (f a).isSome = true := by
  induction l generalizing l' with
  | nil => intro a ha; simp at ha
  | cons x xs ih =>
    intro a ha
    simp only [mapOpt] at h
    cases hfx : f x with
    | none => rw [hfx] at h; exact absurd h (by simp)
    | some y =>
      rw [hfx] at h
      cases hxs : mapOpt f xs with
      | none => rw [hxs] at h; exact absurd h (by simp)
      | some ys =>
        rcases List.mem_cons.1 ha with ha | ha
        · subst ha; simp [hfx]
        · exact ih hxs a ha

theorem mapOpt_eq_map {α β : Type} {f : α → Option β} {g : α → β} :
    ∀ {l : List α}, (∀ a ∈ l, f a = some (g a)) → mapOpt f l = some (l.map g) := by
  intro l
  induction l with
  | nil => intro _; simp [mapOpt]
  | cons x xs ih =>
    intro h
    have hx := h x (List.mem_cons_self x xs)
    have hxs := ih (fun a ha => h a (List.mem_cons_of_mem x ha))
    simp [mapOpt, hx, hxs]

/-! Inversion and frame lemmas for the simulation operations. -/

theorem step_inv {sim sim' : ConsensusSimulation} (h : sim.step = some sim') :
    mapOpt (updateAgent sim.network sim.step_size) sim.network.agents =
        some sim'.network.agents ∧
      sim'.current_round = sim.current_round + 1 ∧
      sim'.step_size = sim.step_size ∧
      sim'.previous_values = sim.previous_values := by
  unfold ConsensusSimulation.step at h
  cases hm : mapOpt (updateAgent sim.network sim.step_size) sim.network.agents with
  | none => rw [hm] at h; exact absurd h (by simp)
  | some ags =>
    rw [hm] at h
    simp only [Option.some.injEq] at h
    subst h
    exact ⟨rfl, rfl, rfl, rfl⟩

theorem updateAgent_empty {net : Network} {α : Rat} {ag : Agent}
    (h : ag.neighbors = []) : updateAgent net α ag = some ag := by
  simp [updateAgent, h]

theorem updateAgent_formula {net : Network} {α : Rat} {ag ag' : Agent}
    (hnb : ag.neighbors ≠ []) (h : updateAgent net α ag = some ag') :
    ∃ nvs, neighborValues net ag = some nvs ∧
      ag'.value =
        ag.value + α * ((ag.value + nvs.sum) / (1 + (nvs.length : Rat)) - ag.value) ∧
      ag'.agent_id = ag.agent_id ∧ ag'.neighbors = ag.neighbors := by
  unfold updateAgent at h
  rw [if_neg hnb] at h
  cases hnv : neighborValues net ag with
  | none => rw [hnv] at h; exact absurd h (by simp)
  | some nvs =>
    rw [hnv] at h
    simp only [Option.some.injEq] at h
    subst h
    exact ⟨nvs, rfl, rfl, rfl, rfl⟩

theorem updateAgent_frame {net : Network} {α : Rat} {ag ag' : Agent}
    (h : updateAgent net α ag = some ag') :
    ag'.agent_id = ag.agent_id ∧ ag'.neighbors = ag.neighbors := by
  by_cases hnb : ag.neighbors = []
  · rw [updateAgent_empty hnb] at h
    simp only [Option.some.injEq] at h
    subst h
    exact ⟨rfl, rfl⟩
  · obtain ⟨nvs, -, -, hid, hn⟩ := updateAgent_formula hnb h
    exact ⟨hid, hn⟩

theorem neighborValues_eq_map {net : Network} {ag : Agent} {nvs : List Rat}
    (h : neighborValues net ag = some nvs) :
    (∀ m ∈ ag.neighbors, (net.find m).isSome = true) ∧
      nvs = ag.neighbors.map net.valueOf := by
  have hsome := mapOpt_isSome h
  have hall : ∀ m ∈ ag.neighbors,
      (net.find m).map Agent.value = some (net.valueOf m) := by
    intro m hm
    have hs := hsome m hm
    cases hf : net.find m with
    | none => rw [hf] at hs; simp at hs
    | some a => simp [Network.valueOf, hf]
  refine ⟨fun m hm => ?_, ?_⟩
  · have hs := hsome m hm
    cases hf : net.find m with
    | none => rw [hf] at hs; simp at hs
    | some a => simp
  · have hmap := mapOpt_eq_map hall
    rw [neighborValues] at h
    rw [hmap] at h
    simp only [Option.some.injEq] at h
    exact h.symm

theorem spread_cons {net : Network} {v : Rat} {vs : List Rat}
    (h : net.agents.map Agent.value = v :: vs) :
    net.spread = vs.foldl max v - vs.foldl min v := by
  unfold Network.spread
  split
  · rename_i h0
    rw [h0] at h
    exact absurd h (by simp)
  · rename_i v' vs' h0
    rw [h0] at h
    simp only [List.cons.injEq] at h
    rw [h.1, h.2]

theorem has_converged_tier1 {sim : ConsensusSimulation} {ε : Rat}
    (h : sim.network.agents = [] ∨ sim.network.spread < ε) :
    (sim.has_converged ε).2 = sim := by
  unfold ConsensusSimulation.has_converged
  split
  · rfl
  · rename_i v vs hmv
    have hne : sim.network.agents ≠ [] := by
      intro hnil
      rw [hnil] at hmv
      simp at hmv
    have hsp : sim.network.spread < ε := h.resolve_left hne
    rw [spread_cons hmv] at hsp
    rw [if_pos hsp]

theorem has_converged_tier2 {sim : ConsensusSimulation} {ε : Rat}
    (hne : sim.network.agents ≠ []) (hsp : ¬ sim.network.spread < ε) :
    (sim.has_converged ε).2 =
      { sim with previous_values := sim.network.get_all_values } := by
  unfold ConsensusSimulation.has_converged
  split
  · rename_i hmv
    exact absurd (List.map_eq_nil_iff.1 hmv) hne
  · rename_i v vs hmv
    rw [spread_cons hmv] at hsp
    rw [if_neg hsp]
    have hlen : 0 < sim.network.agents.length := List.length_pos.2 hne
    rw [if_pos hlen]
    split <;> rfl

theorem has_converged_round (sim : ConsensusSimulation) (ε : Rat) :
    (sim.has_converged ε).2.network = sim.network ∧
      (sim.has_converged ε).2.current_round = sim.current_round ∧
      (sim.has_converged ε).2.step_size = sim.step_size := by
  by_cases h1 : sim.network.agents = [] ∨ sim.network.spread < ε
  · rw [has_converged_tier1 h1]
    exact ⟨rfl, rfl, rfl⟩
  · push_neg at h1
    rw [has_converged_tier2 h1.1 (not_lt.2 h1.2)]
    exact ⟨rfl, rfl, rfl⟩

theorem has_converged_flag (sim : ConsensusSimulation) (ε : Rat) :
    (sim.has_converged ε).1 = true ↔
      (sim.network.agents = [] ∨
       (sim.network.agents ≠ [] ∧ sim.network.spread < ε) ∨
       (sim.network.agents ≠ [] ∧ ¬ sim.network.spread < ε ∧
        (sim.changedCount ε : Rat) / (sim.network.agents.length : Rat) < 1 / 5)) := by
  unfold ConsensusSimulation.has_converged
  split
  · rename_i hmv
    have hnil : sim.network.agents = [] := List.map_eq_nil_iff.1 hmv
    simp [hnil]
  · rename_i v vs hmv
    have hne : sim.network.agents ≠ [] := by
      intro hnil
      rw [hnil] at hmv
      simp at hmv
    have hspread : sim.network.spread = vs.foldl max v - vs.foldl min v :=
      spread_cons hmv
    by_cases hsp : vs.foldl max v - vs.foldl min v < ε
    · simp [hsp, hne, hspread]
    · have hlen : 0 < sim.network.agents.length := List.length_pos.2 hne
      rw [if_neg hsp, if_pos hlen]
      by_cases hr :
          (sim.changedCount ε : Rat) / (sim.network.agents.length : Rat) < 1 / 5
      · rw [if_pos hr]
        simp [hr, hne, hspread, hsp]
        rwa [one_div] at hr
      · rw [if_neg hr]
        simp [hr, hne, hspread, hsp]
        rw [one_div] at hr
        exact not_lt.1 hr

/-! Lemmas about the run loop. -/

theorem step_round {sim sim' : ConsensusSimulation} (h : sim.step = some sim') :
    sim'.current_round = sim.current_round + 1 :=
  (step_inv h).2.1

theorem roundOnce_eq {sim0 u : ConsensusSimulation} {ε : Rat}
    (hst : sim0.step = some u) :
    roundOnce sim0 ε = some (u.has_converged ε) := by
  simp [roundOnce, hst]

theorem roundsFrom_one {sim0 u : ConsensusSimulation} {ε : Rat}
    (hst : sim0.step = some u) :
    roundsFrom sim0 ε 1 = some (u.has_converged ε) := by
  simp [roundsFrom, roundOnce_eq hst]

theorem roundsFrom_succ_succ {sim0 u t : ConsensusSimulation} {ε : Rat}
    {c : Bool} {m : Nat} (hst : sim0.step = some u)
    (hc : u.has_converged ε = (c, t)) :
    roundsFrom sim0 ε (m + 2) = roundsFrom t ε (m + 1) := by
  simp [roundsFrom, roundOnce_eq hst, hc]

theorem roundsFrom_round {ε : Rat} :
    ∀ (k : Nat) (s0 : ConsensusSimulation) (c : Bool) (t : ConsensusSimulation),
      roundsFrom s0 ε k = some (c, t) →
      t.current_round = s0.current_round + k := by
  intro k
  induction k with
  | zero =>
    intro s0 c t h
    simp only [roundsFrom, Option.some.injEq, Prod.mk.injEq] at h
    rw [← h.2]
    omega
  | succ k ih =>
    intro s0 c t h
    cases hst : s0.step with
    | none => simp [roundsFrom, roundOnce, hst] at h
    | some u =>
      have hu : u.current_round = s0.current_round + 1 := step_round hst
      obtain ⟨b1, t1, hc⟩ :
          ∃ b1 t1, u.has_converged ε = (b1, t1) :=
        ⟨(u.has_converged ε).1, (u.has_converged ε).2, rfl⟩
      have ht1 : t1.current_round = u.current_round := by
        have hr := (has_converged_round u ε).2.1
        rw [hc] at hr
        exact hr
      simp only [roundsFrom, roundOnce_eq hst, hc] at h
      by_cases hk : k = 0
      · subst hk
        simp only [if_true, Option.some.injEq, Prod.mk.injEq] at h
        rw [← h.2, ht1, hu]
      · rw [if_neg hk] at h
        have := ih t1 c t h
        omega

theorem runAux_char {ε : Rat} :
    ∀ (f : Nat) (s0 s' : ConsensusSimulation),
      ConsensusSimulation.runAux ε f s0 = some s' →
      ∃ k c, k ≤ f ∧ roundsFrom s0 ε k = some (c, s') ∧ (k = f ∨ c = true) ∧
        ∀ j, 0 < j → j < k → ∃ t, roundsFrom s0 ε j = some (false, t) := by
  intro f
  induction f with
  | zero =>
    intro s0 s' h
    simp only [ConsensusSimulation.runAux, Option.some.injEq] at h
    subst h
    exact ⟨0, false, Nat.le_refl 0, by simp [roundsFrom], Or.inl rfl,
      fun j hj1 hj2 => absurd hj2 (by omega)⟩
  | succ f ih =>
    intro s0 s' h
    rw [ConsensusSimulation.runAux] at h
    cases hst : s0.step with
    | none => simp [hst] at h
    | some u =>
      obtain ⟨b, s2, hc⟩ :
          ∃ b s2, u.has_converged ε = (b, s2) :=
        ⟨(u.has_converged ε).1, (u.has_converged ε).2, rfl⟩
      simp only [hst, hc] at h
      cases b with
      | true =>
        simp only [Option.some.injEq] at h
        subst h
        refine ⟨1, true, by omega, ?_, Or.inr rfl,
          fun j hj1 hj2 => absurd hj2 (by omega)⟩
        rw [roundsFrom_one hst, hc]
      | false =>
        simp only [] at h
        obtain ⟨k, c, hk, hr, hkf, hjs⟩ := ih s2 s' h
        cases k with
        | zero =>
          simp only [roundsFrom, Option.some.injEq, Prod.mk.injEq] at hr
          have hf : f = 0 := by
            rcases hkf with hkf | hkf
            · omega
            · rw [← hr.1] at hkf; exact absurd hkf (by simp)
          refine ⟨1, false, by omega, ?_, Or.inl (by omega),
            fun j hj1 hj2 => absurd hj2 (by omega)⟩
          rw [roundsFrom_one hst, hc, hr.2]
        | succ m =>
          refine ⟨m + 2, c, by omega, ?_, ?_, ?_⟩
          · rw [roundsFrom_succ_succ hst hc]
            exact hr
          · rcases hkf with hkf | hkf
            · exact Or.inl (by omega)
            · exact Or.inr hkf
          · intro j hj1 hj2
            cases j with
            | zero => exact absurd hj1 (by omega)
            | succ j' =>
              cases j' with
              | zero =>
                exact ⟨s2, by rw [roundsFrom_one hst, hc]⟩
              | succ j'' =>
                obtain ⟨t, ht⟩ := hjs (j'' + 1) (by omega) (by omega)
                exact ⟨t, by rw [roundsFrom_succ_succ hst hc]; exact ht⟩

theorem run_inv {sim : ConsensusSimulation} {n : Nat} {ε : Rat} {r : Nat}
    {sim' : ConsensusSimulation} (h : sim.run n ε = some (r, sim')) :
    ConsensusSimulation.runAux ε n sim.initialize_previous_values = some sim' ∧
      r = sim'.current_round := by
  unfold ConsensusSimulation.run at h
  cases ha : ConsensusSimulation.runAux ε n sim.initialize_previous_values with
  | none => rw [ha] at h; exact absurd h (by simp)
  | some s =>
    rw [ha] at h
    simp only [Option.some.injEq, Prod.mk.injEq] at h
    obtain ⟨h1, h2⟩ := h
    subst h2
    exact ⟨rfl, h1.symm⟩

/-! Special cases: empty and single-agent networks, isolated agents. -/

theorem step_network_empty {sim : ConsensusSimulation}
    (h : sim.network.agents = []) :
    sim.step =
      some { sim with
               network := ⟨[]⟩,
               current_round := sim.current_round + 1 } := by
  unfold ConsensusSimulation.step
  rw [h]
  simp [mapOpt]

theorem step_single {sim : ConsensusSimulation} {i : Int} {v : Rat}
    (h : sim.network.agents = [⟨i, v, []⟩]) :
    sim.step =
      some { sim with
               network := ⟨[⟨i, v, []⟩]⟩,
               current_round := sim.current_round + 1 } := by
  unfold ConsensusSimulation.step
  rw [h]
  simp [mapOpt, updateAgent]

theorem has_converged_empty {sim : ConsensusSimulation} {ε : Rat}
    (h : sim.network.agents = []) :
    sim.has_converged ε = (true, sim) := by
  unfold ConsensusSimulation.has_converged
  split
  · rfl
  · rename_i v vs hmv
    rw [h] at hmv
    exact absurd hmv (by simp)

theorem has_converged_single {sim : ConsensusSimulation} {ε : Rat} {i : Int}
    {v : Rat} (h : sim.network.agents = [⟨i, v, []⟩]) (hε : 0 < ε) :
    sim.has_converged ε = (true, sim) := by
  unfold ConsensusSimulation.has_converged
  split
  · rfl
  · rename_i v' vs' hmv
    rw [h] at hmv
    simp only [List.map_cons, List.map_nil, List.cons.injEq] at hmv
    obtain ⟨h1, h2⟩ := hmv
    subst h1
    subst h2
    rw [if_pos]
    simpa using hε

theorem step_preserves_isolated {sim sim' : ConsensusSimulation} {i : Nat}
    {ag : Agent} (h : sim.step = some sim')
    (hag : sim.network.agents[i]? = some ag) (hnb : ag.neighbors = []) :
    sim'.network.agents[i]? = some ag := by
  obtain ⟨hm, -, -, -⟩ := step_inv h
  obtain ⟨b, hb, hb'⟩ := mapOpt_getElem? hm i ag hag
  rw [updateAgent_empty hnb] at hb
  simp only [Option.some.injEq] at hb
  rw [← hb] at hb'
  exact hb'

theorem stepIter_preserves_isolated :
    ∀ (k : Nat) (s0 s' : ConsensusSimulation), stepIter s0 k = some s' →
      ∀ (i : Nat) (ag : Agent), s0.network.agents[i]? = some ag →
        ag.neighbors = [] → s'.network.agents[i]? = some ag := by
  intro k
  induction k with
  | zero =>
    intro s0 s' h i ag hag hnb
    simp only [stepIter, Option.some.injEq] at h
    subst h
    exact hag
  | succ k ih =>
    intro s0 s' h i ag hag hnb
    rw [stepIter] at h
    cases hst : s0.step with
    | none => simp [hst] at h
    | some u =>
      simp only [hst] at h
      exact ih u s' h i ag (step_preserves_isolated hst hag hnb) hnb

theorem runAux_preserves_isolated {ε : Rat} :
    ∀ (f : Nat) (s0 s' : ConsensusSimulation),
      ConsensusSimulation.runAux ε f s0 = some s' →
      ∀ (i : Nat) (ag : Agent), s0.network.agents[i]? = some ag →
        ag.neighbors = [] → s'.network.agents[i]? = some ag := by
  intro f
  induction f with
  | zero =>
    intro s0 s' h i ag hag hnb
    simp only [ConsensusSimulation.runAux, Option.some.injEq] at h
    subst h
    exact hag
  | succ f ih =>
    intro s0 s' h i ag hag hnb
    rw [ConsensusSimulation.runAux] at h
    cases hst : s0.step with
    | none => simp [hst] at h
    | some u =>
      obtain ⟨b, s2, hc⟩ :
          ∃ b s2, u.has_converged ε = (b, s2) :=
        ⟨(u.has_converged ε).1, (u.has_converged ε).2, rfl⟩
      simp only [hst, hc] at h
      have hu : u.network.agents[i]? = some ag :=
        step_preserves_isolated hst hag hnb
      have hs2net : s2.network = u.network := by
        have hr := (has_converged_round u ε).1
        rw [hc] at hr
        exact hr
      have hs2 : s2.network.agents[i]? = some ag := by
        rw [hs2net]
        exact hu
      cases b with
      | true =>
        simp only [Option.some.injEq] at h
        subst h
        exact hs2
      | false =>
        simp only [] at h
        exact ih s2 s' h i ag hs2 hnb

theorem create_ok_fields {net : Network} {α : Rat} {s : ConsensusSimulation}
    (h : ConsensusSimulation.create net α = .ok s) :
    s.network = net ∧ s.step_size = α ∧ s.current_round = 0 ∧
      s.previous_values = [] := by
  unfold ConsensusSimulation.create at h
  split at h
  · simp only [Except.ok.injEq] at h
    subst h
    exact ⟨rfl, rfl, rfl, rfl⟩
  · exact absurd h (by simp)

/-! Claim theorems. -/

/-- C1: `step` computes, for every agent with a non-empty neighbor list,
`updated = value + step_size * ((value + S) / (1 + n) − value)` with `S` the
sum and `n` the count of the neighbors' pre-round values read in list order
(duplicates counted each time); agents with an empty neighbor list keep
their value exactly; every new value is computed from the pre-round
snapshot (synchronous barrier), and `current_round` grows by exactly 1. -/
theorem C1_step_synchronous_update (sim sim' : ConsensusSimulation)
    (h : sim.step = some sim') :
    sim'.current_round = sim.current_round + 1 ∧
    sim'.network.agents.length = sim.network.agents.length ∧
    ∀ (i : Nat) (ag : Agent), sim.network.agents[i]? = some ag →
      ∃ ag', sim'.network.agents[i]? = some ag' ∧
        ag'.agent_id = ag.agent_id ∧ ag'.neighbors = ag.neighbors ∧
        (ag.neighbors = [] → ag' = ag) ∧
        (ag.neighbors ≠ [] →
          (∀ m ∈ ag.neighbors, (sim.network.find m).isSome = true) ∧
          ag'.value = ag.value + sim.step_size *
            ((ag.value + (ag.neighbors.map sim.network.valueOf).sum) /
              (1 + (ag.neighbors.length : Rat)) - ag.value)) := by
  obtain ⟨hm, hround, -, -⟩ := step_inv h
  refine ⟨hround, mapOpt_length hm, ?_⟩
  intro i ag hag
  obtain ⟨ag', hupd, hi⟩ := mapOpt_getElem? hm i ag hag
  refine ⟨ag', hi, (updateAgent_frame hupd).1, (updateAgent_frame hupd).2,
    ?_, ?_⟩
  · intro hnb
    rw [updateAgent_empty hnb] at hupd
    simp only [Option.some.injEq] at hupd
    exact hupd.symm
  · intro hnb
    obtain ⟨nvs, hnv, hval, -, -⟩ := updateAgent_formula hnb hupd
    obtain ⟨hfind, hmapeq⟩ := neighborValues_eq_map hnv
    refine ⟨hfind, ?_⟩
    rw [hval, hmapeq]
    simp [List.length_map]

/-- Witness for C1 on a concrete two-agent network. -/
theorem C1_witness :
    simPair.step = some simPairNext ∧
      simPairNext.current_round = simPair.current_round + 1 :=
  ⟨by with_unfolding_all decide,
   (C1_step_synchronous_update simPair simPairNext
     (by with_unfolding_all decide)).1⟩

/-- C2: `has_converged` returns true for a zero-agent network; otherwise
true when `max − min < epsilon`; otherwise true exactly when the ratio of
agents whose value moved by more than `epsilon` from the previous snapshot
(the current value standing in when no snapshot entry exists) is below
20 %. -/
theorem C2_has_converged_flag (sim : ConsensusSimulation) (ε : Rat) :
    ((sim.has_converged ε).1 = true ↔
      (sim.network.agents = [] ∨
       (sim.network.agents ≠ [] ∧ sim.network.spread < ε) ∨
       (sim.network.agents ≠ [] ∧ ¬ sim.network.spread < ε ∧
        (sim.changedCount ε : Rat) / (sim.network.agents.length : Rat)
          < 1 / 5))) ∧
    (∀ ag ∈ sim.network.agents,
      sim.previous_values.lookup ag.agent_id = none → 0 ≤ ε →
        ¬ ε < |ag.value -
            ((sim.previous_values.lookup ag.agent_id).getD ag.value)|) := by
  refine ⟨has_converged_flag sim ε, ?_⟩
  intro ag _ hnone hε
  rw [hnone]
  simp [not_lt.2 hε]

/-- Witness for C2: a single agent with spread 0 converges immediately. -/
theorem C2_witness : (simSingle.has_converged 1).1 = true :=
  (C2_has_converged_flag simSingle 1).1.mpr
    (Or.inr (Or.inl ⟨by decide, by with_unfolding_all decide⟩))

/-- C9: `has_converged` never mutates the network (values or neighbor
lists) nor the round counter; `previous_values` is untouched on the
empty-network and spread paths, and refreshed to the full current mapping
whenever the change-ratio tier is reached, whatever the returned flag. -/
theorem C9_has_converged_frame (sim : ConsensusSimulation) (ε : Rat) :
    (sim.has_converged ε).2.network = sim.network ∧
    (sim.has_converged ε).2.current_round = sim.current_round ∧
    (sim.has_converged ε).2.step_size = sim.step_size ∧
    ((sim.network.agents = [] ∨ sim.network.spread < ε) →
      (sim.has_converged ε).2.previous_values = sim.previous_values) ∧
    ((sim.network.agents ≠ [] ∧ ¬ sim.network.spread < ε) →
      (sim.has_converged ε).2.previous_values =
        sim.network.get_all_values) := by
  refine ⟨(has_converged_round sim ε).1, (has_converged_round sim ε).2.1,
    (has_converged_round sim ε).2.2, ?_, ?_⟩
  · intro h1
    rw [has_converged_tier1 h1]
  · intro h2
    rw [has_converged_tier2 h2.1 h2.2]

/-- Witness for C9 on the empty network (tier-1 path). -/
theorem C9_witness :
    (emptySim.has_converged 1).2.network = emptySim.network ∧
      (emptySim.has_converged 1).2.previous_values =
        emptySim.previous_values :=
  ⟨(C9_has_converged_frame emptySim 1).1,
   (C9_has_converged_frame emptySim 1).2.2.2.1 (Or.inl rfl)⟩

/-- C5: constructing a `ConsensusSimulation` fails with
`InvalidConfiguration` exactly when the step size lies outside `(0, 1]`;
on failure no simulation value is produced, on success the state starts at
round 0 with an empty snapshot. -/
theorem C5_create_validation (net : Network) (α : Rat) :
    ((∃ e, ConsensusSimulation.create net α = .error e) ↔ (α ≤ 0 ∨ 1 < α)) ∧
    (∀ e, ConsensusSimulation.create net α = .error e →
      e = .invalidConfiguration) ∧
    (∀ s, ConsensusSimulation.create net α = .ok s →
      s.network = net ∧ s.step_size = α ∧ s.current_round = 0 ∧
        s.previous_values = []) := by
  unfold ConsensusSimulation.create
  by_cases h : 0 < α ∧ α ≤ 1
  · rw [if_pos h]
    refine ⟨⟨?_, ?_⟩, ?_, ?_⟩
    · rintro ⟨e, he⟩
      exact absurd he (by simp)
    · intro hcond
      rcases hcond with hc | hc
      · exact absurd h.1 (not_lt.2 hc)
      · exact absurd h.2 (not_le.2 hc)
    · intro e he
      exact absurd he (by simp)
    · intro s hs
      simp only [Except.ok.injEq] at hs
      subst hs
      exact ⟨rfl, rfl, rfl, rfl⟩
  · rw [if_neg h]
    refine ⟨⟨fun _ => ?_, fun _ => ⟨.invalidConfiguration, rfl⟩⟩, ?_, ?_⟩
    · rcases not_and_or.1 h with h' | h'
      · exact Or.inl (not_lt.1 h')
      · exact Or.inr (not_le.1 h')
    · intro e he
      simp only [Except.error.injEq] at he
      exact he.symm
    · intro s hs
      exact absurd hs (by simp)

/-- Witness for C5: 3/2 is rejected, 1 is accepted with round 0. -/
theorem C5_witness :
    (∃ e, ConsensusSimulation.create netTwo (3 / 2) = .error e) ∧
      ∀ s, ConsensusSimulation.create netTwo 1 = .ok s →
        s.current_round = 0 :=
  ⟨(C5_create_validation netTwo (3 / 2)).1.mpr (Or.inr (by norm_num)),
   fun s hs => ((C5_create_validation netTwo 1).2.2 s hs).2.2.1⟩

/-- C6: `add_agent` appends a fresh agent with the given value and an
empty neighbor list when the id is new, and fails with
`DuplicateIdentifier`, leaving the network unchanged, when the id is
already present. -/
theorem C6_add_agent (net : Network) (aid : Int) (v : Rat) :
    ((net.find aid).isSome = true →
      net.add_agent aid v = .error .duplicateIdentifier) ∧
    ((net.find aid).isSome = false →
      net.add_agent aid v = .ok ⟨net.agents ++ [⟨aid, v, []⟩]⟩) := by
  unfold Network.add_agent
  constructor
  · intro h
    rw [if_pos h]
  · intro h
    rw [if_neg (by simp [h])]

/-- Witness for C6: duplicate id 0 rejected, fresh id 2 appended. -/
theorem C6_witness :
    netTwo.add_agent 0 5 = .error .duplicateIdentifier ∧
      netTwo.add_agent 2 5 = .ok ⟨netTwo.agents ++ [⟨2, 5, []⟩]⟩ :=
  ⟨(C6_add_agent netTwo 0 5).1 (by decide),
   (C6_add_agent netTwo 2 5).2 (by decide)⟩

/-- C7: `add_edge` fails with `UnknownAgent` (touching no neighbor list)
when either endpoint is missing; on success it performs exactly two
appends — `b` onto `a`'s list then `a` onto `b`'s — preserving insertion
order, duplicating entries when the same edge is re-added, and landing
both appends on the same list when `a = b`. -/
theorem C7_add_edge (net : Network) (a b : Int) :
    (((net.find a).isSome = true ∧ (net.find b).isSome = true) →
      ∃ net', net.add_edge a b = .ok net' ∧
        net'.agents.length = net.agents.length ∧
        ∀ (i : Nat) (ag : Agent), net.agents[i]? = some ag →
          ∃ ag', net'.agents[i]? = some ag' ∧
            ag'.agent_id = ag.agent_id ∧ ag'.value = ag.value ∧
            ag'.neighbors =
              (if ag.agent_id = a then
                 (if ag.agent_id = b then ag.neighbors ++ [b, a]
                  else ag.neighbors ++ [b])
               else if ag.agent_id = b then ag.neighbors ++ [a]
               else ag.neighbors)) ∧
    ((¬((net.find a).isSome = true ∧ (net.find b).isSome = true)) →
      net.add_edge a b = .error .unknownAgent) := by
  constructor
  · rintro ⟨ha, hb⟩
    refine ⟨(net.appendNeighbor a b).appendNeighbor b a, ?_, ?_, ?_⟩
    · unfold Network.add_edge
      rw [if_pos (by rw [Bool.and_eq_true]; exact ⟨ha, hb⟩)]
    · simp [Network.appendNeighbor]
    · intro i ag hag
      have hg :
          ((net.appendNeighbor a b).appendNeighbor b a).agents[i]? =
            some (
              (fun x : Agent =>
                if x.agent_id = b then
                  { x with neighbors := x.neighbors ++ [a] } else x)
              ((fun x : Agent =>
                if x.agent_id = a then
                  { x with neighbors := x.neighbors ++ [b] } else x) ag)) := by
        simp only [Network.appendNeighbor, List.getElem?_map, hag,
          Option.map_some']
      have key :
          ((fun x : Agent =>
            if x.agent_id = b then
              { x with neighbors := x.neighbors ++ [a] } else x)
          ((fun x : Agent =>
            if x.agent_id = a then
              { x with neighbors := x.neighbors ++ [b] } else x) ag)) =
          { ag with neighbors :=
              (if ag.agent_id = a then
                 (if ag.agent_id = b then ag.neighbors ++ [b, a]
                  else ag.neighbors ++ [b])
               else if ag.agent_id = b then ag.neighbors ++ [a]
               else ag.neighbors) } := by
        by_cases hA : ag.agent_id = a <;> by_cases hB : ag.agent_id = b
        · have hab : a = b := by rw [← hA, hB]
          subst hab
          simp [hA]
        · have hab : ¬ a = b := fun hq => hB (hA.trans hq)
          simp [hA, hB, hab]
        · have hba : ¬ b = a := fun hq => hA (hB.trans hq)
          simp [hA, hB, hba]
        · simp [hA, hB]
      rw [key] at hg
      exact ⟨_, hg, rfl, rfl, rfl⟩
  · intro h
    unfold Network.add_edge
    rw [if_neg (by rw [Bool.and_eq_true]; exact h)]

/-- Witness for C7: missing endpoint 5 is rejected; edge 0–1 succeeds. -/
theorem C7_witness :
    netTwo.add_edge 0 5 = .error .unknownAgent ∧
      ∃ net', netTwo.add_edge 0 1 = .ok net' :=
  ⟨(C7_add_edge netTwo 0 5).2 (by decide),
   ((C7_add_edge netTwo 0 1).1 ⟨by decide, by decide⟩).elim
     (fun net' h => ⟨net', h.1⟩)⟩

/-- C10 (implicit): a uniform state, duplicates and self-loops included,
is an exact fixed point of `step`: with every value equal to `v`, each
local average is `v` and the update adds `step_size * 0`. -/
theorem C10_uniform_fixed_point (sim sim' : ConsensusSimulation) (v : Rat)
    (hv : ∀ ag ∈ sim.network.agents, ag.value = v)
    (h : sim.step = some sim') :
    ∀ ag' ∈ sim'.network.agents, ag'.value = v := by
  obtain ⟨hm, -, -, -⟩ := step_inv h
  intro ag' hag'
  obtain ⟨ag, hagmem, hupd⟩ := mapOpt_mem_rev hm ag' hag'
  by_cases hnb : ag.neighbors = []
  · rw [updateAgent_empty hnb] at hupd
    simp only [Option.some.injEq] at hupd
    rw [← hupd]
    exact hv ag hagmem
  · obtain ⟨nvs, hnv, hval, -, -⟩ := updateAgent_formula hnb hupd
    have hnvs : ∀ x ∈ nvs, x = v := by
      intro x hx
      obtain ⟨m, hmmem, hfm⟩ := mapOpt_mem_rev hnv x hx
      cases hf : sim.network.find m with
      | none => rw [hf] at hfm; simp at hfm
      | some ag0 =>
        rw [hf] at hfm
        simp only [Option.map_some', Option.some.injEq] at hfm
        rw [← hfm]
        exact hv ag0 (List.mem_of_find?_eq_some hf)
    have hrep : nvs = List.replicate nvs.length v := by
      rw [List.eq_replicate_iff]
      exact ⟨rfl, hnvs⟩
    have hsum : nvs.sum = (nvs.length : Rat) * v := by
      conv_lhs => rw [hrep]
      simp [List.sum_replicate, nsmul_eq_mul]
    have hvag : ag.value = v := hv ag hagmem
    have hne : (1 + (nvs.length : Rat)) ≠ 0 := by positivity
    rw [hval, hvag, hsum]
    have hdiv :
        (v + (nvs.length : Rat) * v) / (1 + (nvs.length : Rat)) = v := by
      rw [show v + (nvs.length : Rat) * v = v * (1 + (nvs.length : Rat)) by
        ring]
      exact mul_div_cancel_right₀ v hne
    rw [hdiv]
    ring

/-- Witness for C10 on a uniform network with a self-loop and a
duplicated neighbor entry. -/
theorem C10_witness :
    simUniform.step = some simUniformNext ∧
      ∀ ag' ∈ simUniformNext.network.agents, ag'.value = 7 := by
  have h : simUniform.step = some simUniformNext := by
    with_unfolding_all decide
  exact ⟨h, C10_uniform_fixed_point simUniform simUniformNext 7 (by decide) h⟩

/-- C3 counterexample: the interface admits `max_rounds = 0`, and there
`run` executes no round at all — on the empty network it returns 0 rounds,
not the claimed minimum of 1. -/
theorem C3_counterexample :
    emptySim.run 0 (1 / 1000) = some (0, emptySim) ∧ (0 : Nat) ≠ 1 :=
  ⟨by with_unfolding_all decide, by decide⟩

/-- C3 (amended): for every `max_rounds ≥ 1` and `epsilon > 0`, `run`
executes at least one round; on an empty network it returns exactly 1,
and on a single-agent network with no edges it returns exactly 1 with the
agent's value unchanged. -/
theorem C3_run_first_round (sim : ConsensusSimulation) (n : Nat) (ε : Rat)
    (hn : 1 ≤ n) (hε : 0 < ε) (h0 : sim.current_round = 0) :
    (∀ (r : Nat) (sim' : ConsensusSimulation),
      sim.run n ε = some (r, sim') → 1 ≤ r) ∧
    (sim.network.agents = [] →
      ∃ sim', sim.run n ε = some (1, sim') ∧ sim'.network.agents = []) ∧
    (∀ (i : Int) (v : Rat), sim.network.agents = [⟨i, v, []⟩] →
      ∃ sim', sim.run n ε = some (1, sim') ∧
        sim'.network.agents = [⟨i, v, []⟩]) := by
  obtain ⟨m, rfl⟩ : ∃ m, n = m + 1 := ⟨n - 1, by omega⟩
  refine ⟨?_, ?_, ?_⟩
  · intro r sim' h
    obtain ⟨haux, hr⟩ := run_inv h
    obtain ⟨k, c, hk, hrf, hkf, -⟩ := runAux_char (m + 1) _ sim' haux
    have hround := roundsFrom_round k _ c sim' hrf
    have hicr : sim.initialize_previous_values.current_round = 0 := h0
    have hkpos : 1 ≤ k := by
      rcases Nat.eq_zero_or_pos k with hk0 | hk0
      · subst hk0
        simp only [roundsFrom, Option.some.injEq, Prod.mk.injEq] at hrf
        rcases hkf with hkf | hkf
        · omega
        · rw [← hrf.1] at hkf
          exact absurd hkf (by simp)
      · exact hk0
    omega
  · intro hemp
    have hemp0 : sim.initialize_previous_values.network.agents = [] := hemp
    have hst := step_network_empty hemp0
    have hc := @has_converged_empty
      { sim.initialize_previous_values with
          network := ⟨[]⟩,
          current_round :=
            sim.initialize_previous_values.current_round + 1 } ε rfl
    have hrunaux : ConsensusSimulation.runAux ε (m + 1)
        sim.initialize_previous_values =
        some { sim.initialize_previous_values with
                 network := ⟨[]⟩,
                 current_round :=
                   sim.initialize_previous_values.current_round + 1 } := by
      rw [ConsensusSimulation.runAux]
      simp only [hst, hc]
    have hicr : sim.initialize_previous_values.current_round = 0 := h0
    refine ⟨{ sim.initialize_previous_values with
                network := ⟨[]⟩,
                current_round :=
                  sim.initialize_previous_values.current_round + 1 },
      ?_, rfl⟩
    unfold ConsensusSimulation.run
    simp only [hrunaux]
    simp [hicr]
  · intro i v hone
    have hone0 :
        sim.initialize_previous_values.network.agents = [⟨i, v, []⟩] := hone
    have hst := step_single hone0
    have hc := @has_converged_single
      { sim.initialize_previous_values with
          network := ⟨[⟨i, v, []⟩]⟩,
          current_round :=
            sim.initialize_previous_values.current_round + 1 } ε i v rfl hε
    have hrunaux : ConsensusSimulation.runAux ε (m + 1)
        sim.initialize_previous_values =
        some { sim.initialize_previous_values with
                 network := ⟨[⟨i, v, []⟩]⟩,
                 current_round :=
                   sim.initialize_previous_values.current_round + 1 } := by
      rw [ConsensusSimulation.runAux]
      simp only [hst, hc]
    have hicr : sim.initialize_previous_values.current_round = 0 := h0
    refine ⟨{ sim.initialize_previous_values with
                network := ⟨[⟨i, v, []⟩]⟩,
                current_round :=
                  sim.initialize_previous_values.current_round + 1 },
      ?_, rfl⟩
    unfold ConsensusSimulation.run
    simp only [hrunaux]
    simp [hicr]

/-- Witness for C3 (amended) on a fresh single-agent simulation. -/
theorem C3_witness :
    ∃ sim', simSingle.run 3 1 = some (1, sim') ∧
      sim'.network.agents = [⟨0, 42, []⟩] :=
  (C3_run_first_round simSingle 3 1 (by decide) (by decide) rfl).2.2 0 42 rfl

/-- C4: `run` captures the previous-value snapshot before any round, then
performs at most `max_rounds` step-then-check rounds, stops at the first
`true` check, and returns the executed round count; `current_round`
starts at 0 at construction and grows by exactly one per round. -/
theorem C4_run_loop (sim : ConsensusSimulation) (n : Nat) (ε : Rat) (r : Nat)
    (sim' : ConsensusSimulation) (h : sim.run n ε = some (r, sim')) :
    sim.initialize_previous_values.previous_values =
        sim.network.get_all_values ∧
    r = sim'.current_round ∧
    (∃ k c, k ≤ n ∧
      roundsFrom sim.initialize_previous_values ε k = some (c, sim') ∧
      sim'.current_round = sim.current_round + k ∧
      (k = n ∨ c = true) ∧
      ∀ j, 0 < j → j < k →
        ∃ t, roundsFrom sim.initialize_previous_values ε j =
          some (false, t)) ∧
    (∀ (net : Network) (α : Rat) (s : ConsensusSimulation),
      ConsensusSimulation.create net α = .ok s → s.current_round = 0) := by
  obtain ⟨haux, hr⟩ := run_inv h
  obtain ⟨k, c, hk, hrf, hkf, hjs⟩ := runAux_char n _ sim' haux
  refine ⟨rfl, hr, ⟨k, c, hk, hrf, ?_, hkf, hjs⟩,
    fun net α s hs => (create_ok_fields hs).2.2.1⟩
  exact roundsFrom_round k sim.initialize_previous_values c sim' hrf

/-- Witness for C4 on a fresh single-agent simulation. -/
theorem C4_witness :
    simSingle.run 3 1 = some (1, simSingleFinal) ∧
      1 = simSingleFinal.current_round := by
  have h : simSingle.run 3 1 = some (1, simSingleFinal) := by
    with_unfolding_all decide
  exact ⟨h, (C4_run_loop simSingle 3 1 1 simSingleFinal h).2.1⟩

/-- C8: an agent whose neighbor list is empty holds exactly the same
value (indeed the same whole record) after any number of `step` calls and
after a whole `run`. -/
theorem C8_isolated_agent_constant (sim : ConsensusSimulation) (i : Nat)
    (ag : Agent) (hag : sim.network.agents[i]? = some ag)
    (hnb : ag.neighbors = []) :
    (∀ (k : Nat) (sim' : ConsensusSimulation), stepIter sim k = some sim' →
      sim'.network.agents[i]? = some ag) ∧
    (∀ (n : Nat) (ε : Rat) (r : Nat) (sim' : ConsensusSimulation),
      sim.run n ε = some (r, sim') → sim'.network.agents[i]? = some ag) := by
  constructor
  · intro k sim' h
    exact stepIter_preserves_isolated k sim sim' h i ag hag hnb
  · intro n ε r sim' h
    obtain ⟨haux, -⟩ := run_inv h
    exact runAux_preserves_isolated n _ sim' haux i ag hag hnb

set_option maxRecDepth 10000 in
/-- Witness for C8: agent 99 (value 999, no neighbors) is untouched by a
two-round `run` that moves both other agents. -/
theorem C8_witness :
    simIso.run 2 (1 / 1000) = some (2, simIsoFinal) ∧
      simIsoFinal.network.agents[2]? = some ⟨99, 999, []⟩ := by
  have h : simIso.run 2 (1 / 1000) = some (2, simIsoFinal) := by
    with_unfolding_all decide
  exact ⟨h, (C8_isolated_agent_constant simIso 2 ⟨99, 999, []⟩ rfl rfl).2
    2 (1 / 1000) 2 simIsoFinal h⟩

end Consensus
